import Mathlib

/-!
Verification of the MecaCell SphereMembrane core (src/mecacell/spheremembrane.hpp).

The C++ float type is idealised as the exact rationals.  Square roots and cube
roots are not exactly computable on the rationals, so every function that the
C++ code feeds through sqrt or cbrt receives the root function as an explicit
parameter; theorems quantify over it and concrete evaluations use the exact
partial root functions sqrtQ and cbrtQ below, which agree with the real root on
the perfect squares and cubes reached by the concrete inputs.

Quantities that carry a factor of pi homogeneously (spherical volumes, cap
volumes) are represented by their coefficient of pi, since pi cancels in every
use the claims observe; each such definition notes this.

Helpers that live in files of this repository that are not under src
(tools.h, connection.h, cellcellconnectionmanager.hpp, modelconnection.hpp)
are modelled from the spec and say so in their doc comments.
-/

namespace MecaCellProof

/-- Modelled from the spec: tools.h (not under src) rounds to a fixed decimal
precision to avoid floating noise; modelled here as rounding to 6 decimal
places, the representative fixed precision. -/
def roundN (x : ℚ) : ℚ := Rat.divInt (x * 1000000 + 1 / 2).floor 1000000

/-- Modelled from the spec: tools.h (not under src) provides the numeric
tolerance used for tie detection; modelled as an absolute tolerance of 1e-8. -/
def fuzzyEqual (a b : ℚ) : Prop := |a - b| < 1 / 100000000

instance (a b : ℚ) : Decidable (fuzzyEqual a b) := by
  unfold fuzzyEqual; infer_instance

/-- Modelled from the spec: tools.h (not under src) linear interpolation,
mix a b t = a when t = 0 and b when t = 1. -/
def mix (a b t : ℚ) : ℚ := a * (1 - t) + b * t

/-- Modelled from the spec: the adhesion threshold constant of tools.h (not
under src); any value in [0, 1) is compatible with the spec, 1/10 is used. -/
def ADH_THRESHOLD : ℚ := 1 / 10

/-- Modelled from the spec: the rest length multiple at maximal adhesion
(tools.h, not under src). -/
def MIN_CELL_ADH_LENGTH : ℚ := 6 / 10

/-- Modelled from the spec: the rest length multiple at the adhesion threshold
(tools.h, not under src). -/
def MAX_CELL_ADH_LENGTH : ℚ := 1

/-- Cosine similarity threshold above which two model connections are merged,
from line 16 of spheremembrane.hpp. -/
def MIN_MODEL_CONNECTION_SIMILARITY : ℚ := 8 / 10

/-- Floor square root by bisection on a fuel of 128 halvings, exact for every
natural below 2^128; the explicit fuel keeps the evaluation shallow. -/
def sqrtBisect (n : ℕ) : ℕ → ℕ → ℕ → ℕ
  | 0, lo, _ => lo
  | f + 1, lo, hi =>
    if hi ≤ lo then lo
    else
      let mid := (lo + hi + 1) / 2
      if mid * mid ≤ n then sqrtBisect n f mid hi else sqrtBisect n f lo (mid - 1)

/-- Floor square root of a natural (below 2^128). -/
def natSqrt (n : ℕ) : ℕ := sqrtBisect n 128 0 n

/-- Exact rational square root: returns the true root on perfect squares of
nonnegative rationals; stands in for the float sqrt on the values concrete
inputs reach. -/
def sqrtQ (q : ℚ) : ℚ := (natSqrt q.num.toNat : ℚ) / (natSqrt q.den : ℚ)

/-- Largest natural whose cube does not exceed n. -/
def natCbrt (n : ℕ) : ℕ := Nat.findGreatest (fun k => k ^ 3 ≤ n) n

/-- Exact rational cube root: returns the true root on perfect cubes of
nonnegative rationals; stands in for the float cbrt on the values concrete
inputs reach. -/
def cbrtQ (q : ℚ) : ℚ := (natCbrt q.num.toNat : ℚ) / (natCbrt q.den : ℚ)

/-! ### Vectors -/

/-- Three dimensional vector over the rationals (the Vec type of tools.h). -/
structure Vec where
  x : ℚ
  y : ℚ
  z : ℚ
deriving DecidableEq, Repr

instance : Zero Vec := ⟨⟨0, 0, 0⟩⟩

instance : Add Vec := ⟨fun a b => ⟨a.x + b.x, a.y + b.y, a.z + b.z⟩⟩

instance : Sub Vec := ⟨fun a b => ⟨a.x - b.x, a.y - b.y, a.z - b.z⟩⟩

instance : Neg Vec := ⟨fun a => ⟨-a.x, -a.y, -a.z⟩⟩

instance : SMul ℚ Vec := ⟨fun q a => ⟨q * a.x, q * a.y, q * a.z⟩⟩

/-- Dot product. -/
def Vec.dot (a b : Vec) : ℚ := a.x * b.x + a.y * b.y + a.z * b.z

/-- Cross product. -/
def Vec.cross (a b : Vec) : Vec :=
  ⟨a.y * b.z - a.z * b.y, a.z * b.x - a.x * b.z, a.x * b.y - a.y * b.x⟩

/-- Squared euclidean length (Vec::sqlength). -/
def Vec.sqlength (a : Vec) : ℚ := a.dot a

/-- Componentwise fixed precision rounding of a vector (roundN on Vec). -/
def roundV (a : Vec) : Vec := ⟨roundN a.x, roundN a.y, roundN a.z⟩

/-! ### Cells, connections, worlds -/

/-- One cell together with its sphere membrane state.  The C++ splits this
between the Cell template parameter (position, previous position, mass,
adhesion accessors) and its owned SphereMembrane (radius, correctedRadius);
both are flattened here.  Cells are identified by a stable id standing for the
C++ pointer. -/
structure Cell where
  id : ℕ
  position : Vec
  prevPosition : Vec
  radius : ℚ
  correctedRadius : ℚ
  mass : ℚ
  adhesionWith : ℕ → ℚ
  adhesionWithModel : ℕ → ℚ

instance : Inhabited Cell :=
  ⟨⟨0, 0, 0, 0, 0, 0, fun _ => 0, fun _ => 0⟩⟩

/-- A cell-cell connection.  Endpoints are cell ids (node0, node1); length and
direction are the cached geometry refreshed by updateLengthDirection; the
direction convention direction = (pos0 - pos1) / length is forced by the
normal computation of getConnectedCellAndMembraneDistance (line 93) together
with the query orientation of checkForCellCellConnections (lines 367-374).
The spring stiffness, damping and joints of the C++ connection (connection.h,
not under src) are carried only through restLength, the sole spring parameter
any claim mentions. -/
structure Conn where
  node0 : ℕ
  node1 : ℕ
  length : ℚ
  direction : Vec
  restLength : ℚ
deriving DecidableEq, Repr

/-- One cell-model connection (modelconnection.hpp, not under src; modelled
from the spec): a bounce spring anchored to a mesh face plus an anchor spring
tracking cell height, with the dirty mark used by the sweep.  Only the fields
the sweep of checkForCellModelCollisions reads or writes are kept. -/
structure MC where
  dirty : Bool
  bouncePos : Vec
  bounceFace : ℕ
  bounceRest : ℚ
  anchorPos : Vec
  anchorLength : ℚ
  anchorDir : Vec
deriving DecidableEq, Repr

/-- The cell-model connection container: per mesh id, per cell id, the list of
active connections (CellModelConnectionContainer; the unordered maps are
modelled as association lists). -/
abbrev CMCon : Type := List (ℕ × List (ℕ × List MC))

/-- A static triangle mesh (struct Model of model.h): vertex list and faces as
vertex index triples.  The string name key is replaced by the mesh id of the
container. -/
structure Model where
  vertices : List Vec
  faces : List (ℕ × ℕ × ℕ)

/-- The world: the cell set and the flat cell-cell connection container,
plus the cell-model connection container.  The per-cell neighbour views of
the C++ (cellcellconnectionmanager.hpp, not under src) are modelled from the
spec as derived views of the flat container, with which the spec requires
them to stay consistent. -/
structure World where
  cells : List Cell
  conns : List Conn
  cmConns : CMCon

/-- Cell lookup by id. -/
def getCell (w : World) (i : ℕ) : Cell := (w.cells.find? (fun c => c.id == i)).getD default

/-- Position of the cell with the given id. -/
def posOf (w : World) (i : ℕ) : Vec := (getCell w i).position

/-- Membrane radius of the cell with the given id. -/
def radiusOf (w : World) (i : ℕ) : ℚ := (getCell w i).radius

/-- Corrected radius of the cell with the given id. -/
def crOf (w : World) (i : ℕ) : ℚ := (getCell w i).correctedRadius

/-- Does connection c join cells a and b (in either order)? -/
def joins (c : Conn) (a b : ℕ) : Prop :=
  (c.node0 = a ∧ c.node1 = b) ∨ (c.node0 = b ∧ c.node1 = a)

instance (c : Conn) (a b : ℕ) : Decidable (joins c a b) := by
  unfold joins; infer_instance

/-- Is connection c incident to cell i? -/
def incident (c : Conn) (i : ℕ) : Prop := c.node0 = i ∨ c.node1 = i

instance (c : Conn) (i : ℕ) : Decidable (incident c i) := by
  unfold incident; infer_instance

/-- Modelled from the spec: CCCM::areConnected (cellcellconnectionmanager.hpp,
not under src) answers whether a pair of cells is connected, consistently with
the flat container. -/
def areConnected (w : World) (a b : ℕ) : Prop := ∃ c ∈ w.conns, joins c a b

instance (w : World) (a b : ℕ) : Decidable (areConnected w a b) := by
  unfold areConnected; exact List.decidableBEx _ _

/-- The connections of one cell, as its per-cell connection manager view
(cccm.cellConnections); modelled from the spec as the incident connections of
the flat container in container order. -/
def connsOf (w : World) (i : ℕ) : List Conn := w.conns.filter (fun c => incident c i)

/-- The central adjacency invariant of the spec: no self connection and no two
connections joining the same unordered pair. -/
def PairOK (w : World) : Prop :=
  (∀ c ∈ w.conns, c.node0 ≠ c.node1) ∧
  w.conns.Pairwise (fun c d => ¬ joins d c.node0 c.node1)

instance (w : World) : Decidable (PairOK w) := by
  unfold PairOK; exact instDecidableAnd

/-! ### The membrane distance query (spheremembrane.hpp lines 85-108) -/

/-- One step of the closest-candidate scan of
getConnectedCellAndMembraneDistance: a candidate whose distance is within the
fuzzyEqual tolerance of the running closest distance is appended, a strictly
closer one replaces the set and the distance (lines 99-104). -/
def candStep (acc : List ℕ × ℚ) (p : ℕ × ℚ) : List ℕ × ℚ :=
  if fuzzyEqual p.2 acc.2 then (acc.1 ++ [p.1], acc.2)
  else if p.2 < acc.2 then ([p.1], p.2)
  else acc

/-- The candidate a connection contributes to the scan of
getConnectedCellAndMembraneDistance for cell cid and unit query direction d
(lines 90-98): the other endpoint together with its distance
-midpoint / dot, where midpoint = length * radius / (radius + otherRadius),
provided the outward normal of the connection has negative dot product with
d; none otherwise.  Length and direction are recomputed from positions as the
call to updateLengthDirection on line 91 does, through the explicit root
function. -/
def candOf (sqrtFn : ℚ → ℚ) (w : World) (cid : ℕ) (d : Vec) (cn : Conn) :
    Option (ℕ × ℚ) :=
  let other := if cn.node0 = cid then cn.node1 else cn.node0
  let ab := posOf w cn.node0 - posOf w cn.node1
  let len := sqrtFn ab.sqlength
  let dirv := (1 / len) • ab
  let normal := if cn.node0 = cid then -dirv else dirv
  let dt := normal.dot d
  if dt < 0 then
    some (other, -(len * radiusOf w cid / (radiusOf w cid + radiusOf w other)) / dt)
  else none

/-- The candidate list of the scan, in container order. -/
def candList (sqrtFn : ℚ → ℚ) (w : World) (cid : ℕ) (d : Vec) : List (ℕ × ℚ) :=
  (connsOf w cid).filterMap (candOf sqrtFn w cid d)

/-- SphereMembrane::getConnectedCellAndMembraneDistance (lines 85-108): scans
the connections of the cell, starting from the empty set and the corrected
radius, feeding each candidate through candStep. -/
def getConnectedCellAndMembraneDistance (sqrtFn : ℚ → ℚ) (w : World) (cid : ℕ)
    (d : Vec) : List ℕ × ℚ :=
  (connsOf w cid).foldl
    (fun acc cn =>
      match candOf sqrtFn w cid d cn with
      | some p => candStep acc p
      | none => acc)
    ([], crOf w cid)

/-- The minimum of the candidate distances and the start value d0, in scan
order. -/
def minDist (d0 : ℚ) (ls : List (ℕ × ℚ)) : ℚ := ls.foldl (fun a p => min a p.2) d0

/-- The result set as the words of the claim describe it: the candidates whose
distance is fuzzyEqual to the closest candidate distance (the corrected radius
standing in when there is no candidate).  This is the spec-side definition to
be compared with getConnectedCellAndMembraneDistance. -/
def specClosestCells (sqrtFn : ℚ → ℚ) (w : World) (cid : ℕ) (d : Vec) : List ℕ :=
  let ls := candList sqrtFn w cid d
  let m := minDist (crOf w cid) ls
  (ls.filter (fun p => decide (fuzzyEqual p.2 m))).map Prod.fst

/-! ### Rest length policy and volume model (lines 118-152, 185-198) -/

/-- SphereMembrane::getConnectionLength(l, adh) (lines 148-152). -/
def getConnectionLength (l adh : ℚ) : ℚ :=
  if adh > ADH_THRESHOLD then
    mix (MAX_CELL_ADH_LENGTH * l) (MIN_CELL_ADH_LENGTH * l) adh
  else l

/-- SphereMembrane::getConnectionLength(c0, c1) (lines 142-146): summed
corrected radii and the minimum of the two directional adhesions. -/
def getConnectionLengthCells (w : World) (a b : ℕ) : ℚ :=
  getConnectionLength (crOf w a + crOf w b)
    (min ((getCell w a).adhesionWith b) ((getCell w b).adhesionWith a))

/-- SphereMembrane::getVolume (lines 118-120), as its coefficient of pi:
(4/3) * radius^3.  The factor pi cancels in every use a claim observes
(stiffness blending ratios and the volume compensation below). -/
def getVolume (w : World) (i : ℕ) : ℚ := (4 / 3) * radiusOf w i ^ 3

/-- SphereMembrane::compensateVolumeLoss (lines 185-198), with volumes
represented by their coefficient of pi (which cancels between the numerator
and the (4/3) * pi divisor of line 197 exactly as in the source): returns the
new correctedRadius roundN(cbrt((targetVol + 1.3 * volumeLoss) / (4/3))),
where the loss sums the spherical caps (h/6) * (3 * (r^2 - m^2) + h^2) over
the connections of the cell, using each connection's cached length. -/
def compensateVolumeLoss (cbrtFn : ℚ → ℚ) (w : World) (cid : ℕ) : ℚ :=
  let r := radiusOf w cid
  let targetVol := getVolume w cid
  let volumeLoss := (connsOf w cid).foldl
    (fun acc cn =>
      let other := if cn.node0 = cid then cn.node1 else cn.node0
      let midpoint := cn.length * r / (r + radiusOf w other)
      let h := r - midpoint
      acc + (h / 6) * (3 * (r ^ 2 - midpoint ^ 2) + h ^ 2))
    0
  roundN (cbrtFn ((targetVol + (13 / 10) * volumeLoss) / (4 / 3)))

/-- SphereMembrane::computePressure (lines 180-183).  The spherical surface is
4 * pi * r^2; the pi factor is dropped (the returned value is pi times the
C++ pressure), which leaves unchanged the only property any claim observes:
whether the denominator is zero.  The division is unguarded in the source;
none records the division by a zero surface that a zero radius produces. -/
def computePressure (totalForce r : ℚ) : Option ℚ :=
  let surface := 4 * r ^ 2
  if surface = 0 then none else some (roundN (totalForce / surface))

/-! ### Refreshing connections (connection geometry cache) -/

/-- Connection::updateLengthDirection (connection.h, not under src; modelled
from the spec: the cached length and direction are recomputed from the node
positions before any force use).  length = |pos0 - pos1| through the explicit
root function, direction = (pos0 - pos1) / length. -/
def updateLengthDirection (sqrtFn : ℚ → ℚ) (w : World) (cn : Conn) : Conn :=
  let ab := posOf w cn.node0 - posOf w cn.node1
  let len := sqrtFn ab.sqlength
  { cn with length := len, direction := (1 / len) • ab }

/-- The connection container after the refresh loop at the top of
updateCellCellConnections (lines 408-411) and of checkForCellCellConnections
(lines 345-347). -/
def refreshedConns (sqrtFn : ℚ → ℚ) (w : World) : List Conn :=
  w.conns.map (updateLengthDirection sqrtFn w)

/-! ### updateCellCellConnections (lines 403-451) -/

/-- The removal condition of updateCellCellConnections (lines 417-427): the
current length exceeds the rounded summed corrected radii, or either endpoint
is missing from the other endpoint's closest-cells query along the rounded
connection direction. -/
def connectionInvalid (sqrtFn : ℚ → ℚ) (w : World) (cn : Conn) : Prop :=
  cn.length > roundN (crOf w cn.node0 + crOf w cn.node1) ∨
  cn.node0 ∉ (getConnectedCellAndMembraneDistance sqrtFn w cn.node1
      (roundV (-cn.direction))).1 ∨
  cn.node1 ∉ (getConnectedCellAndMembraneDistance sqrtFn w cn.node0
      (roundV cn.direction)).1

instance (sqrtFn : ℚ → ℚ) (w : World) (cn : Conn) :
    Decidable (connectionInvalid sqrtFn w cn) := by
  unfold connectionInvalid; infer_instance

/-- The parameter update a valid connection receives in the else branch of
updateCellCellConnections (lines 430-445): the rest length is refreshed from
the adhesion policy at the average of the two directional adhesions.  The
contact surface stiffness rescaling and the force computation of the same
branch touch only the spring and joint coefficients and the cell force
accumulators (connection.h, not under src), which no claim mentions, and are
not carried. -/
def refreshConn (w : World) (cn : Conn) : Conn :=
  { cn with restLength := roundN (getConnectionLength
      (crOf w cn.node0 + crOf w cn.node1)
      (((getCell w cn.node0).adhesionWith cn.node1 +
        (getCell w cn.node1).adhesionWith cn.node0) * (1 / 2))) }

/-- Modelled from the spec: CCCM::disconnect (cellcellconnectionmanager.hpp,
not under src) removes the connection of the pair from the container (and from
both per-cell views, which are derived here). -/
def disconnectPair (cs : List Conn) (a b : ℕ) : List Conn :=
  cs.filter (fun c => ¬ joins c a b)

/-- SphereMembrane::updateCellCellConnections (lines 403-451): refresh every
cached length and direction, scan all connections deciding removal from the
full refreshed container (the decision reads only positions and radii, which
the scan does not mutate), refresh the parameters of the valid ones, and only
after the full scan disconnect the queued pairs. -/
def updateCellCellConnections (sqrtFn : ℚ → ℚ) (w : World) : World :=
  let conns1 := refreshedConns sqrtFn w
  let w1 : World := { w with conns := conns1 }
  let toErase := conns1.filter (fun cn => connectionInvalid sqrtFn w1 cn)
  let conns2 := conns1.map (fun cn =>
    if connectionInvalid sqrtFn w1 cn then cn else refreshConn w1 cn)
  { w with conns := toErase.foldl (fun cs cn => disconnectPair cs cn.node0 cn.node1) conns2 }

/-! ### checkForCellCellConnections (lines 341-386) -/

/-- make_ordered_cell_pair (tools.h, not under src; modelled from the spec):
the unordered pair in a canonical order, the C++ pointer order standing for
the id order. -/
def orderedCellPair (c1 c2 : Cell) : Cell × Cell :=
  if c1.id ≤ c2.id then (c1, c2) else (c2, c1)

/-- All index pairs j < k of one batch, in the order of the nested loops of
lines 354-355. -/
def batchPairs : List Cell → List (Cell × Cell)
  | [] => []
  | c :: rest => rest.map (fun d => (c, d)) ++ batchPairs rest

/-- The cheap proximity test of lines 359-364: the squared length of the
componentwise rounded center difference, against the squared summed corrected
radii. -/
def cheapPass (c1 c2 : Cell) : Prop :=
  (roundV (c1.position - c2.position)).sqlength ≤
    (c1.correctedRadius + c2.correctedRadius) ^ 2

instance (c1 c2 : Cell) : Decidable (cheapPass c1 c2) := by
  unfold cheapPass; infer_instance

/-- The direction normalisation of line 368, dir = AB / dist.  The division is
unguarded in the source; none records the division by a zero center distance
that coincident cells produce (the NaN of the C++ floats). -/
def normalizedDirOf (ab : Vec) (dist : ℚ) : Option Vec :=
  if dist = 0 then none else some ((1 / dist) • ab)

/-- One iteration of the pair loop of checkForCellCellConnections
(lines 356-378) acting on the proposed-pair accumulator: cheap-reject by
squared distance, skip already connected pairs, pairs already proposed this
pass, and identical cells, then run the precise membrane-distance test and
append the ordered pair on success.  Where the C++ NaN direction of a zero
center distance would make every later comparison false, the ℚ model takes
the zero vector, whose candidate test dot < 0 is equally false. -/
def pairStep (sqrtFn : ℚ → ℚ) (w : World) (acc : List (ℕ × ℕ))
    (cc : Cell × Cell) : List (ℕ × ℕ) :=
  let op := orderedCellPair cc.1 cc.2
  let ab := roundV (op.1.position - op.2.position)
  let sqDistance := ab.sqlength
  if sqDistance ≤ (op.1.correctedRadius + op.2.correctedRadius) ^ 2 then
    if ¬ areConnected w op.1.id op.2.id ∧ (op.1.id, op.2.id) ∉ acc ∧
        op.1.id ≠ op.2.id then
      let dist := sqrtFn sqDistance
      let dir := (normalizedDirOf ab dist).getD 0
      if dist <
          roundN (getConnectedCellAndMembraneDistance sqrtFn w op.1.id dir).2 +
          roundN (getConnectedCellAndMembraneDistance sqrtFn w op.2.id (-dir)).2 then
        acc ++ [(op.1.id, op.2.id)]
      else acc
    else acc
  else acc

/-- The proposed pairs of one pass over one batch (the spatial partition is
external; its batches are modelled from the spec as the single batch holding
all cells, which only enlarges the set of pairs examined). -/
def proposedPairs (sqrtFn : ℚ → ℚ) (w : World) : List (ℕ × ℕ) :=
  (batchPairs w.cells).foldl (pairStep sqrtFn w) []

/-- SphereMembrane::createConnection (lines 462-488): the new connection of a
proposed pair, rest length from the adhesion policy of getConnectionLength on
the two cells.  The volume-blended stiffness and damping and the two joints
(lines 466-487) parameterise spring fields (connection.h, not under src) that
no claim mentions and are not carried; the cached geometry starts from its
first updateLengthDirection. -/
def createConnection (sqrtFn : ℚ → ℚ) (w : World) (p : ℕ × ℕ) : Conn :=
  updateLengthDirection sqrtFn w
    { node0 := p.1, node1 := p.2, length := 0, direction := 0,
      restLength := roundN (getConnectionLengthCells w p.1 p.2) }

/-- SphereMembrane::checkForCellCellConnections (lines 341-386): refresh the
cached geometry of the existing connections, collect the proposed pairs of
the pass, and create their connections only after the scan. -/
def checkForCellCellConnections (sqrtFn : ℚ → ℚ) (w : World) : World :=
  let w1 : World := { w with conns := refreshedConns sqrtFn w }
  { w1 with conns := w1.conns ++ (proposedPairs sqrtFn w1).map (createConnection sqrtFn w1) }

/-! ### disconnectAndDeleteAllConnections (lines 453-460) -/

/-- The connectedCells per-cell neighbour view of the Cell (external to this
core; modelled from the spec as the set of other endpoints of the incident
connections of the container, with which the spec requires it to stay
consistent). -/
def connectedCells (w : World) (cid : ℕ) : List ℕ :=
  (w.conns.filterMap (fun c =>
    if c.node0 = cid then some c.node1
    else if c.node1 = cid then some c.node0 else none)).dedup

/-- SphereMembrane::disconnectAndDeleteAllConnections (lines 453-460):
disconnect the cell from each neighbour of its connectedCells view.  The
cell-model connections are not touched, exactly as in the source, whose
line 455 comment records them as unhandled. -/
def disconnectAndDeleteAllConnections (w : World) (cid : ℕ) : World :=
  let cop := connectedCells w cid
  { w with conns := cop.foldl (fun cs c1 => disconnectPair cs cid c1) w.conns }

/-! ### checkForCellModelCollisions (lines 216-338) -/

/-- projectionIntriangle (tools.h, not under src; modelled from the spec:
project the cell center onto the triangle plane and test whether the
projection lies inside the triangle).  The inside test uses the sign of each
edge cross product against the plane normal; a degenerate triangle keeps the
point itself, a case no claim reaches. -/
def projectionIntriangle (q0 q1 q2 c : Vec) : Bool × Vec :=
  let n := (q1 - q0).cross (q2 - q0)
  let nn := n.sqlength
  let proj := if nn = 0 then c else c - (((c - q0).dot n) / nn) • n
  let inside :=
    decide (0 ≤ (((q1 - q0).cross (proj - q0)).dot n)) &&
    decide (0 ≤ (((q2 - q1).cross (proj - q1)).dot n)) &&
    decide (0 ≤ (((q0 - q2).cross (proj - q2)).dot n))
  (inside, proj)

/-- The three vertices of face f of a mesh (lines 232-234); out of range
indices, undefined behaviour in the C++, default to the origin. -/
def faceVerts (m : Model) (f : ℕ) : Vec × Vec × Vec :=
  let t := m.faces.getD f (0, 0, 0)
  (m.vertices.getD t.1 0, m.vertices.getD t.2.1 0, m.vertices.getD t.2.2 0)

/-- Normalisation through the explicit root function (Vec::normalize /
normalized of tools.h, not under src; modelled from the spec). -/
def normalizeV (sqrtFn : ℚ → ℚ) (v : Vec) : Vec := (1 / sqrtFn v.sqlength) • v

/-- The in-place update of a matched model connection (lines 256-280): clear
the dirty mark, move the bounce point to the new projection and face, and when
the anchor spring has positive length move the anchor to the cell height along
the component of the anchor direction orthogonal to the contact direction,
clamped to the cell radius, skipping near-parallel anchors. -/
def updateMC (sqrtFn : ℚ → ℚ) (c : Cell) (cd proj : Vec) (face : ℕ) (mc : MC) : MC :=
  let mc1 : MC := { mc with dirty := false, bouncePos := proj, bounceFace := face }
  if 0 < mc.anchorLength then
    let crossp := cd.cross (cd.cross mc.anchorDir)
    if c.radius * (2 / 100) < crossp.sqlength then
      let crossn := normalizeV sqrtFn crossp
      let projLength := min ((mc.anchorPos - c.position).dot crossn) c.radius
      { mc1 with anchorPos := c.position + projLength • crossn }
    else mc1
  else mc1

/-- The scan of the existing connections of a (mesh, cell) key (lines
251-283): the first connection whose previous bounce direction has cosine
similarity above MIN_MODEL_CONNECTION_SIMILARITY with the current contact
direction is updated in place and the scan stops; none means no match. -/
def tryMatch (sqrtFn : ℚ → ℚ) (c : Cell) (cd proj : Vec) (face : ℕ) :
    List MC → Option (List MC)
  | [] => none
  | mc :: rest =>
    let prevDir := normalizeV sqrtFn (mc.bouncePos - c.prevPosition)
    if MIN_MODEL_CONNECTION_SIMILARITY < prevDir.dot cd then
      some (updateMC sqrtFn c cd proj face mc :: rest)
    else (tryMatch sqrtFn c cd proj face rest).map (fun l => mc :: l)

/-- The new model connection of lines 285-306: created unmarked, bounce at the
projection with the adhesion-interpolated rest length, anchor at the cell
center with zero length. -/
def newMC (c : Cell) (proj : Vec) (face meshId : ℕ) : MC :=
  { dirty := false, bouncePos := proj, bounceFace := face,
    bounceRest := mix (MAX_CELL_ADH_LENGTH * c.correctedRadius)
      (MIN_CELL_ADH_LENGTH * c.correctedRadius) (c.adhesionWithModel meshId),
    anchorPos := c.position, anchorLength := 0, anchorDir := 0 }

/-- Association list lookup of the connection list of a (mesh, cell) key
(the operator[] reads of lines 249-251). -/
def mcLookup (cmc : CMCon) (meshId cellId : ℕ) : List MC :=
  match (cmc.find? (fun p => p.1 == meshId)) with
  | none => []
  | some p =>
    match (p.2.find? (fun q => q.1 == cellId)) with
    | none => []
    | some q => q.2

/-- Association list write of the connection list of a (mesh, cell) key,
creating the missing entries exactly as the C++ operator[] chain of line 305
does. -/
def mcStore (cmc : CMCon) (meshId cellId : ℕ) (l : List MC) : CMCon :=
  match cmc with
  | [] => [(meshId, [(cellId, l)])]
  | (m, cl) :: rest =>
    if m = meshId then
      (m, mcStoreCell cl cellId l) :: rest
    else (m, cl) :: mcStore rest meshId cellId l
where
  /-- Inner association list write for the cell level. -/
  mcStoreCell : List (ℕ × List MC) → ℕ → List MC → List (ℕ × List MC)
    | [], cellId, l => [(cellId, l)]
    | (c, v) :: rest, cellId, l =>
      if c = cellId then (c, l) :: rest else (c, v) :: mcStoreCell rest cellId l

/-- One candidate (mesh, face) of one cell (lines 230-307): project the cell
center in the face triangle; on an inside projection within the bounding
radius, either update the first direction-similar existing connection of the
(mesh, cell) key in place or append a brand new connection for the key. -/
def processCandidate (sqrtFn : ℚ → ℚ) (models : ℕ → Model) (c : Cell)
    (cmc : CMCon) (mf : ℕ × ℕ) : CMCon :=
  let tri := faceVerts (models mf.1) mf.2
  let projec := projectionIntriangle tri.1 tri.2.1 tri.2.2 c.position
  let cd0 := projec.2 - c.position
  if projec.1 ∧ cd0.sqlength < c.correctedRadius ^ 2 then
    let cd := normalizeV sqrtFn cd0
    let existing := mcLookup cmc mf.1 c.id
    match tryMatch sqrtFn c cd projec.2 mf.2 existing with
    | some updated => mcStore cmc mf.1 c.id updated
    | none => mcStore cmc mf.1 c.id (existing ++ [newMC c projec.2 mf.2 mf.1])
  else cmc

/-- The dirty marking pass at the start of the sweep (lines 220-226). -/
def markAllDirty (cmc : CMCon) : CMCon :=
  cmc.map (fun p => (p.1, p.2.map (fun q => (q.1, q.2.map (fun mc => { mc with dirty := true })))))

/-- The dirty removal pass after the sweep (lines 311-322); the mirrored
per-cell membrane view removal of line 315 is derived here. -/
def removeDirty (cmc : CMCon) : CMCon :=
  cmc.map (fun p => (p.1, p.2.map (fun q => (q.1, q.2.filter (fun mc => ¬ mc.dirty)))))

/-- The empty entry cleanup of lines 324-337, in source order: a mesh entry
already empty when visited is erased; otherwise its empty cell entries are
erased and the mesh entry is kept, even when that leaves it empty. -/
def cleanupEmpty (cmc : CMCon) : CMCon :=
  cmc.filterMap (fun p =>
    if p.2 = [] then none
    else some (p.1, p.2.filter (fun q => q.2 ≠ [])))

/-- SphereMembrane::checkForCellModelCollisions (lines 216-338): mark every
connection dirty, sweep every cell over its broad-phase candidates (the model
grid is external and supplies, per cell, the candidate (mesh, face) pairs),
remove the connections still dirty, and clean up empty entries. -/
def checkForCellModelCollisions (sqrtFn : ℚ → ℚ) (models : ℕ → Model)
    (retrieve : ℕ → List (ℕ × ℕ)) (cells : List Cell) (cmc : CMCon) : CMCon :=
  let swept := cells.foldl
    (fun acc c => (retrieve c.id).foldl (processCandidate sqrtFn models c) acc)
    (markAllDirty cmc)
  cleanupEmpty (removeDirty swept)

/-! ### Concrete worlds used by the witnesses and counterexamples -/

/-- A cell with the given id, position, radius and corrected radius, zero
adhesion everywhere. -/
def mkCell (i : ℕ) (p : Vec) (r cr : ℚ) : Cell :=
  { id := i, position := p, prevPosition := p, radius := r, correctedRadius := cr,
    mass := 1, adhesionWith := fun _ => 0, adhesionWithModel := fun _ => 0 }

/-- A fresh connection between two cell ids, cached geometry zero until the
first refresh. -/
def mkConn (a b : ℕ) : Conn :=
  { node0 := a, node1 := b, length := 0, direction := 0, restLength := 0 }

/-- Three collinear cells of radius 2: cell 0 and cell 1 are connected at
distance 4, cell 2 sits between them at distance 1 from cell 1, connected to
cell 1.  Along the 0-1 axis, cell 1 still sees cell 2 (not cell 0) as its
closest connected neighbour: a one-sided nearest-neighbour failure for the
0-1 connection. -/
def wC1 : World :=
  { cells := [mkCell 0 ⟨0, 0, 0⟩ 2 2, mkCell 1 ⟨4, 0, 0⟩ 2 2, mkCell 2 ⟨3, 0, 0⟩ 2 2],
    conns := [mkConn 0 1, mkConn 1 2], cmConns := [] }

/-- Two unconnected unit cells within contact range. -/
def wC2 : World :=
  { cells := [mkCell 0 ⟨0, 0, 0⟩ 1 1, mkCell 1 ⟨3/2, 0, 0⟩ 1 1],
    conns := [], cmConns := [] }

/-- A cell connected to three neighbours whose candidate distances are
5 + 3e-9, 5 and 5 + 12e-9: the first two are within the 1e-8 tolerance of
each other and of the scan minimum, the third is beyond the tolerance of the
true minimum 5 but within the tolerance of the running closest distance
5 + 3e-9 met first. -/
def wC3 : World :=
  { cells := [mkCell 0 ⟨0, 0, 0⟩ 1 50,
              mkCell 1 ⟨10 + 6/1000000000, 0, 0⟩ 1 50,
              mkCell 2 ⟨10, 0, 0⟩ 1 50,
              mkCell 3 ⟨10 + 24/1000000000, 0, 0⟩ 1 50],
    conns := [mkConn 0 1, mkConn 0 2, mkConn 0 3], cmConns := [] }

/-- A cell connected to two neighbours at cleanly separated candidate
distances 2 and 3. -/
def wC3w : World :=
  { cells := [mkCell 0 ⟨0, 0, 0⟩ 1 10,
              mkCell 1 ⟨4, 0, 0⟩ 1 10,
              mkCell 2 ⟨6, 0, 0⟩ 1 10],
    conns := [mkConn 0 1, mkConn 0 2], cmConns := [] }

/-- Two unconnected unit cells at center distance exactly 2 (the borderline of
the cheap test). -/
def wC4a : World :=
  { cells := [mkCell 0 ⟨0, 0, 0⟩ 1 1, mkCell 1 ⟨2, 0, 0⟩ 1 1],
    conns := [], cmConns := [] }

/-- Two unconnected unit cells at center distance 2.001. -/
def wC4b : World :=
  { cells := [mkCell 0 ⟨0, 0, 0⟩ 1 1, mkCell 1 ⟨2001/1000, 0, 0⟩ 1 1],
    conns := [], cmConns := [] }

/-- Two unconnected cells of corrected radius 0.4999996 at true center
distance 0.99999949, strictly beyond contact range 0.9999992; the 6 decimal
rounding of the center difference and of the membrane distances lets the pair
through both tests. -/
def wC4x : World :=
  { cells := [mkCell 0 ⟨0, 0, 0⟩ 1 (4999996/10000000),
              mkCell 1 ⟨99999949/100000000, 0, 0⟩ 1 (4999996/10000000)],
    conns := [], cmConns := [] }

/-- One isolated cell of radius 1/3, not representable at the fixed rounding
precision. -/
def wC5a : World :=
  { cells := [mkCell 0 ⟨0, 0, 0⟩ (1/3) (1/3)], conns := [], cmConns := [] }

/-- One isolated cell of radius 2. -/
def wC5b : World :=
  { cells := [mkCell 0 ⟨0, 0, 0⟩ 2 2], conns := [], cmConns := [] }

/-- A cell-model connection in its steady state (unmarked, unit bounce
direction along x, idle anchor). -/
def mc9 : MC :=
  { dirty := false, bouncePos := ⟨1, 0, 0⟩, bounceFace := 0, bounceRest := 1,
    anchorPos := 0, anchorLength := 0, anchorDir := 0 }

/-- A world whose cell 0 is both cell-cell connected to cell 1 and carries a
cell-model connection to mesh 0. -/
def wC7 : World :=
  { cells := [mkCell 0 ⟨0, 0, 0⟩ 1 1, mkCell 1 ⟨1, 0, 0⟩ 1 1],
    conns := [mkConn 0 1], cmConns := [(0, [(0, [mc9])])] }

/-- Two distinct unconnected unit cells with coincident centers. -/
def wC8 : World :=
  { cells := [mkCell 0 ⟨0, 0, 0⟩ 1 1, mkCell 1 ⟨0, 0, 0⟩ 1 1],
    conns := [], cmConns := [] }

/-- An empty mesh table and an empty broad-phase: no candidate contact is ever
produced. -/
def models0 : ℕ → Model := fun _ => { vertices := [], faces := [] }

/-- The broad-phase retrieval returning no candidates for any cell. -/
def retr0 : ℕ → List (ℕ × ℕ) := fun _ => []

/-- A model connection container holding one connection of mesh 0 and cell 5. -/
def cmc9 : CMCon := [(0, [(5, [mc9])])]

/-- Two connected unit cells at distance 1. -/
def wC10 : World :=
  { cells := [mkCell 0 ⟨0, 0, 0⟩ 1 1, mkCell 1 ⟨1, 0, 0⟩ 1 1],
    conns := [mkConn 0 1], cmConns := [] }

/-- The number of connections of the container joining an unordered pair of
cell ids. -/
def pairJoinCount (w : World) (a b : ℕ) : ℕ :=
  w.conns.countP (fun c => decide (joins c a b))

/-- The invariant of every pair the scan of checkForCellCellConnections
proposes: canonically ordered distinct ids, not already connected, and
produced by two cells of the batch that passed the cheap proximity test in
that order. -/
def ProposedOK (w : World) (q : ℕ × ℕ) : Prop :=
  q.1 ≤ q.2 ∧ q.1 ≠ q.2 ∧ ¬ areConnected w q.1 q.2 ∧
  ∃ c1 ∈ w.cells, ∃ c2 ∈ w.cells, c1.id = q.1 ∧ c2.id = q.2 ∧ cheapPass c1 c2

/-! ### Helper lemmas -/

theorem roundN_eq_round (x : ℚ) : roundN x = ((round (x * 1000000) : ℤ) : ℚ) / 1000000 := by
  rw [round_eq, roundN, Rat.divInt_eq_div]
  norm_num
  rfl

theorem fuzzyEqual_refl (a : ℚ) : fuzzyEqual a a := by
  simp [fuzzyEqual]

theorem joins_comm {c d : Conn} (h : joins c d.node0 d.node1) :
    joins d c.node0 c.node1 := by
  rcases h with ⟨h0, h1⟩ | ⟨h0, h1⟩
  · exact Or.inl ⟨h0.symm, h1.symm⟩
  · exact Or.inr ⟨h1.symm, h0.symm⟩

@[simp] theorem updateLengthDirection_node0 (s : ℚ → ℚ) (w : World) (cn : Conn) :
    (updateLengthDirection s w cn).node0 = cn.node0 := rfl

@[simp] theorem updateLengthDirection_node1 (s : ℚ → ℚ) (w : World) (cn : Conn) :
    (updateLengthDirection s w cn).node1 = cn.node1 := rfl

@[simp] theorem refreshConn_node0 (w : World) (cn : Conn) :
    (refreshConn w cn).node0 = cn.node0 := rfl

@[simp] theorem refreshConn_node1 (w : World) (cn : Conn) :
    (refreshConn w cn).node1 = cn.node1 := rfl

theorem joins_updateLengthDirection (s : ℚ → ℚ) (w : World) (cn : Conn) (a b : ℕ) :
    joins (updateLengthDirection s w cn) a b ↔ joins cn a b := by
  simp [joins]

theorem mem_disconnectPair (cs : List Conn) (a b : ℕ) (c : Conn) :
    c ∈ disconnectPair cs a b ↔ c ∈ cs ∧ ¬ joins c a b := by
  simp [disconnectPair]

theorem mem_foldl_disconnect (l : List Conn) (cs : List Conn) (c : Conn) :
    c ∈ l.foldl (fun cs2 cn => disconnectPair cs2 cn.node0 cn.node1) cs ↔
      c ∈ cs ∧ ∀ e ∈ l, ¬ joins c e.node0 e.node1 := by
  induction l generalizing cs with
  | nil => simp
  | cons e rest ih =>
    simp only [List.foldl_cons, ih, mem_disconnectPair, List.forall_mem_cons]
    tauto

theorem foldl_match_filterMap {α : Type} (f : α → Option (ℕ × ℚ)) (l : List α) :
    ∀ acc, l.foldl (fun acc2 a => match f a with
        | some p => candStep acc2 p
        | none => acc2) acc
      = (l.filterMap f).foldl candStep acc := by
  induction l with
  | nil => intro acc; rfl
  | cons a rest ih =>
    intro acc
    cases h : f a <;> simp only [List.foldl_cons, List.filterMap_cons, h, ih]

theorem getCCAMD_eq_candFold (s : ℚ → ℚ) (w : World) (cid : ℕ) (d : Vec) :
    getConnectedCellAndMembraneDistance s w cid d =
      (candList s w cid d).foldl candStep ([], crOf w cid) := by
  unfold getConnectedCellAndMembraneDistance candList
  exact foldl_match_filterMap (candOf s w cid d) (connsOf w cid) ([], crOf w cid)

theorem candFold_bound (ls : List (ℕ × ℚ)) : ∀ acc : List ℕ × ℚ,
    (ls.foldl candStep acc).2 ≤ acc.2 ∧
    ∀ n ∈ (ls.foldl candStep acc).1,
      n ∈ acc.1 ∨ ∃ p ∈ ls, p.1 = n ∧ p.2 < acc.2 + 1 / 100000000 := by
  induction ls with
  | nil => exact fun acc => ⟨le_refl _, fun n hn => Or.inl hn⟩
  | cons p rest ih =>
    intro acc
    by_cases hf : fuzzyEqual p.2 acc.2
    · have h1 : candStep acc p = (acc.1 ++ [p.1], acc.2) := by simp [candStep, hf]
      obtain ⟨hle, hmem⟩ := ih (acc.1 ++ [p.1], acc.2)
      rw [List.foldl_cons, h1]
      refine ⟨hle, fun n hn => ?_⟩
      rcases hmem n hn with h | ⟨q, hq, h1q, h2q⟩
      · rcases List.mem_append.1 h with h | h
        · exact Or.inl h
        · have hn1 : p.1 = n := (List.mem_singleton.1 h).symm
          have hlt : p.2 < acc.2 + 1 / 100000000 := by
            have := abs_lt.1 hf
            linarith [this.2]
          exact Or.inr ⟨p, List.mem_cons_self p rest, hn1, hlt⟩
      · exact Or.inr ⟨q, List.mem_cons_of_mem p hq, h1q, h2q⟩
    · by_cases hlt : p.2 < acc.2
      · have h1 : candStep acc p = ([p.1], p.2) := by simp [candStep, hf, hlt]
        obtain ⟨hle, hmem⟩ := ih ([p.1], p.2)
        rw [List.foldl_cons, h1]
        refine ⟨le_trans hle (le_of_lt hlt), fun n hn => ?_⟩
        rcases hmem n hn with h | ⟨q, hq, h1q, h2q⟩
        · have hn1 : p.1 = n := (List.mem_singleton.1 h).symm
          have : p.2 < acc.2 + 1 / 100000000 := by linarith
          exact Or.inr ⟨p, List.mem_cons_self p rest, hn1, this⟩
        · have : q.2 < acc.2 + 1 / 100000000 := by linarith
          exact Or.inr ⟨q, List.mem_cons_of_mem p hq, h1q, this⟩
      · have h1 : candStep acc p = acc := by simp [candStep, hf, hlt]
        obtain ⟨hle, hmem⟩ := ih acc
        rw [List.foldl_cons, h1]
        refine ⟨hle, fun n hn => ?_⟩
        rcases hmem n hn with h | ⟨q, hq, h1q, h2q⟩
        · exact Or.inl h
        · exact Or.inr ⟨q, List.mem_cons_of_mem p hq, h1q, h2q⟩

theorem minDist_cons (d0 : ℚ) (p : ℕ × ℚ) (rest : List (ℕ × ℚ)) :
    minDist d0 (p :: rest) = minDist (min d0 p.2) rest := rfl

theorem minDist_le (ls : List (ℕ × ℚ)) : ∀ d0 : ℚ, minDist d0 ls ≤ d0 := by
  induction ls with
  | nil => exact fun d0 => le_refl d0
  | cons p rest ih =>
    intro d0
    calc minDist d0 (p :: rest) = minDist (min d0 p.2) rest := rfl
    _ ≤ min d0 p.2 := ih (min d0 p.2)
    _ ≤ d0 := min_le_left d0 p.2

theorem candFold_sep (ls : List (ℕ × ℚ)) : ∀ (s : List ℕ) (d : ℚ),
    (∀ x ∈ d :: ls.map Prod.snd, ∀ y ∈ d :: ls.map Prod.snd, fuzzyEqual x y → x = y) →
    ls.foldl candStep (s, d) =
      ((if minDist d ls < d then [] else s) ++
        (ls.filter (fun p => p.2 = minDist d ls)).map Prod.fst, minDist d ls) := by
  induction ls with
  | nil =>
    intro s d _
    simp [minDist]
  | cons p rest ih =>
    intro s d hsep
    have hdmem : d ∈ d :: (p :: rest).map Prod.snd := List.mem_cons_self _ _
    have hpmem : p.2 ∈ d :: (p :: rest).map Prod.snd := by
      simp
    by_cases hf : fuzzyEqual p.2 d
    · have hpd : p.2 = d := hsep p.2 hpmem d hdmem hf
      have hstep : candStep (s, d) p = (s ++ [p.1], d) := by simp [candStep, hf]
      have hmin : minDist d (p :: rest) = minDist d rest := by
        rw [minDist_cons, hpd, min_self]
      have hsep2 : ∀ x ∈ d :: rest.map Prod.snd, ∀ y ∈ d :: rest.map Prod.snd,
          fuzzyEqual x y → x = y := by
        intro x hx y hy
        refine hsep x ?_ y ?_
        · rcases List.mem_cons.1 hx with h | h
          · exact h ▸ hdmem
          · simp [h]
        · rcases List.mem_cons.1 hy with h | h
          · exact h ▸ hdmem
          · simp [h]
      have hrec := ih (s ++ [p.1]) d hsep2
      rw [List.foldl_cons, hstep, hrec, hmin]
      by_cases hc : minDist d rest < d
      · have hne : p.2 ≠ minDist d rest := by rw [hpd]; exact (ne_of_gt hc)
        simp [hc, List.filter_cons, hne]
      · have heq : minDist d rest = d := le_antisymm (minDist_le rest d) (not_lt.1 hc)
        have hpe : p.2 = minDist d rest := by rw [hpd, heq]
        simp [hc, List.filter_cons, hpe]
    · by_cases hlt : p.2 < d
      · have hstep : candStep (s, d) p = ([p.1], p.2) := by simp [candStep, hf, hlt]
        have hmin : minDist d (p :: rest) = minDist p.2 rest := by
          rw [minDist_cons, min_eq_right (le_of_lt hlt)]
        have hsep2 : ∀ x ∈ p.2 :: rest.map Prod.snd, ∀ y ∈ p.2 :: rest.map Prod.snd,
            fuzzyEqual x y → x = y := by
          intro x hx y hy
          refine hsep x ?_ y ?_
          · rcases List.mem_cons.1 hx with h | h
            · exact h ▸ hpmem
            · simp [h]
          · rcases List.mem_cons.1 hy with h | h
            · exact h ▸ hpmem
            · simp [h]
        have hrec := ih [p.1] p.2 hsep2
        rw [List.foldl_cons, hstep, hrec, hmin]
        have hM : minDist p.2 rest < d := lt_of_le_of_lt (minDist_le rest p.2) hlt
        by_cases hc : minDist p.2 rest < p.2
        · have hne : p.2 ≠ minDist p.2 rest := (ne_of_gt hc)
          simp [hc, hM, List.filter_cons, hne]
        · have heq : minDist p.2 rest = p.2 :=
            le_antisymm (minDist_le rest p.2) (not_lt.1 hc)
          simp [hc, List.filter_cons, heq, hlt]
      · have hne : p.2 ≠ d := by
          intro h
          exact hf (h ▸ fuzzyEqual_refl p.2)
        have hgt : d < p.2 := lt_of_le_of_ne (not_lt.1 hlt) (Ne.symm hne)
        have hstep : candStep (s, d) p = (s, d) := by simp [candStep, hf, hlt]
        have hmin : minDist d (p :: rest) = minDist d rest := by
          rw [minDist_cons, min_eq_left (le_of_lt hgt)]
        have hsep2 : ∀ x ∈ d :: rest.map Prod.snd, ∀ y ∈ d :: rest.map Prod.snd,
            fuzzyEqual x y → x = y := by
          intro x hx y hy
          refine hsep x ?_ y ?_
          · rcases List.mem_cons.1 hx with h | h
            · exact h ▸ hdmem
            · simp [h]
          · rcases List.mem_cons.1 hy with h | h
            · exact h ▸ hdmem
            · simp [h]
        have hrec := ih s d hsep2
        rw [List.foldl_cons, hstep, hrec, hmin]
        have hpne : p.2 ≠ minDist d rest :=
          ne_of_gt (lt_of_le_of_lt (minDist_le rest d) hgt)
        simp [List.filter_cons, hpne]

/-! ### Claim theorems -/

/-- C3 (amended): for every query direction, a neighbour is a candidate of
getConnectedCellAndMembraneDistance exactly when its outward normal has
negative dot product with the direction, with distance derived from the
radius-weighted midpoint (this is candList); when there is no candidate the
result is the empty set with the corrected radius; and whenever any two of
the candidate distances and the corrected radius are either equal or farther
apart than the fuzzyEqual tolerance, the returned set is exactly the
candidates achieving the minimum distance, with that minimum (capped by the
corrected radius) as the returned distance.  Without that separation, ties
are judged against the running closest distance in scan order, not against
the final minimum (see the counterexample). -/
theorem getConnectedCell_sep_characterization (s : ℚ → ℚ) (w : World) (cid : ℕ)
    (d : Vec)
    (hsep : ∀ x ∈ crOf w cid :: (candList s w cid d).map Prod.snd,
            ∀ y ∈ crOf w cid :: (candList s w cid d).map Prod.snd,
            fuzzyEqual x y → x = y) :
    getConnectedCellAndMembraneDistance s w cid d =
      (((candList s w cid d).filter
          (fun p => p.2 = minDist (crOf w cid) (candList s w cid d))).map Prod.fst,
        minDist (crOf w cid) (candList s w cid d)) ∧
    (candList s w cid d = [] →
      getConnectedCellAndMembraneDistance s w cid d = ([], crOf w cid)) := by
  constructor
  · rw [getCCAMD_eq_candFold, candFold_sep (candList s w cid d) [] (crOf w cid) hsep]
    by_cases hc : minDist (crOf w cid) (candList s w cid d) < crOf w cid <;> simp [hc]
  · intro h0
    rw [getCCAMD_eq_candFold, h0]
    rfl

/-- Witness for C3: a cell with two neighbours at cleanly separated candidate
distances 2 and 3 returns exactly the closest one. -/
theorem getConnectedCell_sep_characterization_witness :
    getConnectedCellAndMembraneDistance sqrtQ wC3w 0 ⟨-1, 0, 0⟩ =
      (((candList sqrtQ wC3w 0 ⟨-1, 0, 0⟩).filter
          (fun p => p.2 = minDist (crOf wC3w 0) (candList sqrtQ wC3w 0 ⟨-1, 0, 0⟩))).map
          Prod.fst,
        minDist (crOf wC3w 0) (candList sqrtQ wC3w 0 ⟨-1, 0, 0⟩)) :=
  (getConnectedCell_sep_characterization sqrtQ wC3w 0 ⟨-1, 0, 0⟩ (by with_unfolding_all decide)).1

set_option maxRecDepth 4000 in
/-- C3 counterexample: with candidate distances 5 + 3e-9, 5 and 5 + 12e-9 met
in that order, the scan returns all three neighbours although the third is
beyond the fuzzyEqual tolerance of the closest candidate distance 5: the
returned set is not the set of closest candidates with ties decided by
fuzzyEqual, which the spec-side definition specClosestCells computes. -/
theorem getConnectedCell_tie_order_counterexample :
    (getConnectedCellAndMembraneDistance sqrtQ wC3 0 ⟨-1, 0, 0⟩).1 = [1, 2, 3] ∧
    specClosestCells sqrtQ wC3 0 ⟨-1, 0, 0⟩ = [1, 2] ∧
    (getConnectedCellAndMembraneDistance sqrtQ wC3 0 ⟨-1, 0, 0⟩).1 ≠
      specClosestCells sqrtQ wC3 0 ⟨-1, 0, 0⟩ := by
  with_unfolding_all decide

/-- C5 (amended): for a cell with no connections, compensateVolumeLoss sets
correctedRadius to roundN(radius): the volume loss sum is empty, the
spherical volume inverts to the radius exactly, and the fixed precision
rounding of line 197 is applied to it; the result equals the radius exactly
when the radius is representable at the rounding precision. -/
theorem compensateVolumeLoss_isolated (cbrtFn : ℚ → ℚ) (w : World) (cid : ℕ)
    (hno : connsOf w cid = [])
    (hcb : cbrtFn (radiusOf w cid ^ 3) = radiusOf w cid) :
    compensateVolumeLoss cbrtFn w cid = roundN (radiusOf w cid) ∧
    (roundN (radiusOf w cid) = radiusOf w cid →
      compensateVolumeLoss cbrtFn w cid = radiusOf w cid) := by
  have harg : ((4 : ℚ) / 3 * radiusOf w cid ^ 3 + 13 / 10 * 0) / (4 / 3) =
      radiusOf w cid ^ 3 := by ring
  have h1 : compensateVolumeLoss cbrtFn w cid = roundN (radiusOf w cid) := by
    unfold compensateVolumeLoss getVolume
    rw [hno]
    simp only [List.foldl_nil]
    rw [harg, hcb]
  exact ⟨h1, fun h2 => h1.trans h2⟩

/-- Witness for C5: an isolated cell of radius 2 keeps correctedRadius 2. -/
theorem compensateVolumeLoss_isolated_witness :
    compensateVolumeLoss cbrtQ wC5b 0 = radiusOf wC5b 0 :=
  (compensateVolumeLoss_isolated cbrtQ wC5b 0 (by with_unfolding_all decide) (by with_unfolding_all decide)).2 (by with_unfolding_all decide)

/-- C5 counterexample: an isolated cell of radius 1/3, which no fixed decimal
precision represents, gets correctedRadius roundN(1/3) = 0.333333, not its
radius. -/
theorem compensateVolumeLoss_roundN_counterexample :
    connsOf wC5a 0 = [] ∧
    compensateVolumeLoss cbrtQ wC5a 0 = 333333 / 1000000 ∧
    compensateVolumeLoss cbrtQ wC5a 0 ≠ radiusOf wC5a 0 := by
  refine ⟨by with_unfolding_all decide,
    Rat.ext (by with_unfolding_all decide) (by with_unfolding_all decide), fun h => ?_⟩
  have h2 := congrArg Rat.num h
  revert h2
  with_unfolding_all decide

/-- C6: getConnectionLength(l, adh) returns l unchanged whenever the adhesion
does not exceed the threshold, in particular getConnectionLength(2, 0) = 2;
above the threshold it interpolates between the max-adhesion and min-adhesion
multiples of l, so getConnectionLength(2, 1) is the minimum-adhesion-length
multiple of 2. -/
theorem getConnectionLength_adhesion (l adh : ℚ) :
    (adh ≤ ADH_THRESHOLD → getConnectionLength l adh = l) ∧
    (ADH_THRESHOLD < adh →
      getConnectionLength l adh =
        mix (MAX_CELL_ADH_LENGTH * l) (MIN_CELL_ADH_LENGTH * l) adh) ∧
    getConnectionLength 2 0 = 2 ∧
    getConnectionLength 2 1 = MIN_CELL_ADH_LENGTH * 2 := by
  refine ⟨?_, ?_, ?_, ?_⟩
  · intro h
    simp [getConnectionLength, not_lt.mpr h]
  · intro h
    simp [getConnectionLength, h]
  · with_unfolding_all decide
  · with_unfolding_all decide

/-- Witness for C6 at concrete inputs on both sides of the threshold. -/
theorem getConnectionLength_adhesion_witness :
    getConnectionLength 3 (1 / 20) = 3 ∧
    getConnectionLength 2 1 = MIN_CELL_ADH_LENGTH * 2 :=
  ⟨(getConnectionLength_adhesion 3 (1 / 20)).1 (by norm_num [ADH_THRESHOLD]),
   (getConnectionLength_adhesion 2 1).2.2.2⟩

/-- C7: disconnectAndDeleteAllConnections removes every cell-cell connection
of the cell, but leaves its cell-model connections untouched (the line 455
comment of the source records them as unhandled): after the call on a cell
carrying one model connection, the cell-cell container is empty while the
model connection of cell 0 still dangles in the container. -/
theorem disconnectAndDeleteAllConnections_model_connections_remain :
    (disconnectAndDeleteAllConnections wC7 0).conns = [] ∧
    (disconnectAndDeleteAllConnections wC7 0).cmConns = [(0, [(0, [mc9])])] ∧
    mcLookup (disconnectAndDeleteAllConnections wC7 0).cmConns 0 0 = [mc9] := by
  with_unfolding_all decide

/-- C8: neither division named by the claim is guarded.  computePressure on a
zero radius divides by a zero surface (modelled as none); and in
checkForCellCellConnections two distinct unconnected coincident cells pass
the cheap test and reach the direction normalisation of line 368 with a zero
center distance, so the division dir = AB / dist has a zero denominator
(modelled as none). -/
theorem unguarded_division_inputs :
    computePressure 5 0 = none ∧
    cheapPass (mkCell 0 ⟨0, 0, 0⟩ 1 1) (mkCell 1 ⟨0, 0, 0⟩ 1 1) ∧
    ¬ areConnected wC8 0 1 ∧
    sqrtQ ((roundV (posOf wC8 0 - posOf wC8 1)).sqlength) = 0 ∧
    normalizedDirOf (roundV (posOf wC8 0 - posOf wC8 1))
      (sqrtQ ((roundV (posOf wC8 0 - posOf wC8 1)).sqlength)) = none := by
  with_unfolding_all decide

/-- C10: the distance returned by getConnectedCellAndMembraneDistance never
exceeds the corrected radius, and every neighbour in the returned set owes
its membership to a candidate distance below correctedRadius plus the
fuzzyEqual tolerance, so a neighbour all of whose candidate distances exceed
the corrected radius beyond the tolerance is never returned. -/
theorem membrane_distance_bounded (s : ℚ → ℚ) (w : World) (cid : ℕ) (d : Vec) :
    (getConnectedCellAndMembraneDistance s w cid d).2 ≤ crOf w cid ∧
    ∀ n ∈ (getConnectedCellAndMembraneDistance s w cid d).1,
      ∃ p ∈ candList s w cid d, p.1 = n ∧ p.2 < crOf w cid + 1 / 100000000 := by
  rw [getCCAMD_eq_candFold]
  obtain ⟨h1, h2⟩ := candFold_bound (candList s w cid d) ([], crOf w cid)
  refine ⟨h1, fun n hn => ?_⟩
  rcases h2 n hn with h | h
  · simp at h
  · exact h

/-- Witness for C10: two connected unit cells at distance 1. -/
theorem membrane_distance_bounded_witness :
    (getConnectedCellAndMembraneDistance sqrtQ wC10 0 ⟨-1, 0, 0⟩).2 ≤ crOf wC10 0 ∧
    ∃ p ∈ candList sqrtQ wC10 0 ⟨-1, 0, 0⟩, p.1 = 1 ∧
      p.2 < crOf wC10 0 + 1 / 100000000 :=
  ⟨(membrane_distance_bounded sqrtQ wC10 0 ⟨-1, 0, 0⟩).1,
   (membrane_distance_bounded sqrtQ wC10 0 ⟨-1, 0, 0⟩).2 1 (by with_unfolding_all decide)⟩

theorem batchPairs_mem {l : List Cell} {cc : Cell × Cell} (h : cc ∈ batchPairs l) :
    cc.1 ∈ l ∧ cc.2 ∈ l := by
  induction l with
  | nil => simp [batchPairs] at h
  | cons c rest ih =>
    unfold batchPairs at h
    rcases List.mem_append.1 h with h | h
    · rcases List.mem_map.1 h with ⟨d, hd, he⟩
      rw [← he]
      exact ⟨List.mem_cons_self c rest, List.mem_cons_of_mem c hd⟩
    · obtain ⟨h1, h2⟩ := ih h
      exact ⟨List.mem_cons_of_mem c h1, List.mem_cons_of_mem c h2⟩

theorem orderedCellPair_cases (c1 c2 : Cell) :
    orderedCellPair c1 c2 = (c1, c2) ∨ orderedCellPair c1 c2 = (c2, c1) := by
  unfold orderedCellPair
  split_ifs <;> simp

theorem orderedCellPair_le (c1 c2 : Cell) :
    (orderedCellPair c1 c2).1.id ≤ (orderedCellPair c1 c2).2.id := by
  unfold orderedCellPair
  split_ifs with h
  · exact h
  · exact le_of_not_le h

theorem pairStep_cases (s : ℚ → ℚ) (w : World) (acc : List (ℕ × ℕ)) (cc : Cell × Cell) :
    pairStep s w acc cc = acc ∨
    (pairStep s w acc cc =
        acc ++ [((orderedCellPair cc.1 cc.2).1.id, (orderedCellPair cc.1 cc.2).2.id)] ∧
      cheapPass (orderedCellPair cc.1 cc.2).1 (orderedCellPair cc.1 cc.2).2 ∧
      ¬ areConnected w (orderedCellPair cc.1 cc.2).1.id (orderedCellPair cc.1 cc.2).2.id ∧
      ((orderedCellPair cc.1 cc.2).1.id, (orderedCellPair cc.1 cc.2).2.id) ∉ acc ∧
      (orderedCellPair cc.1 cc.2).1.id ≠ (orderedCellPair cc.1 cc.2).2.id) := by
  unfold pairStep
  dsimp only
  split_ifs with h1 h2 h3
  · exact Or.inr ⟨rfl, h1, h2.1, h2.2.1, h2.2.2⟩
  · exact Or.inl rfl
  · exact Or.inl rfl
  · exact Or.inl rfl

theorem pairStep_inv (s : ℚ → ℚ) (w : World) (acc : List (ℕ × ℕ)) (cc : Cell × Cell)
    (hc1 : cc.1 ∈ w.cells) (hc2 : cc.2 ∈ w.cells)
    (hacc : ∀ q ∈ acc, ProposedOK w q) (hnd : acc.Nodup) :
    (∀ q ∈ pairStep s w acc cc, ProposedOK w q) ∧ (pairStep s w acc cc).Nodup := by
  rcases pairStep_cases s w acc cc with h | ⟨heq, hch, hcon, hnin, hne⟩
  · rw [h]; exact ⟨hacc, hnd⟩
  · rw [heq]
    have hops : (orderedCellPair cc.1 cc.2).1 ∈ w.cells ∧
        (orderedCellPair cc.1 cc.2).2 ∈ w.cells := by
      rcases orderedCellPair_cases cc.1 cc.2 with h | h <;> rw [h] <;>
        exact ⟨by assumption, by assumption⟩
    have hok : ProposedOK w ((orderedCellPair cc.1 cc.2).1.id,
        (orderedCellPair cc.1 cc.2).2.id) :=
      ⟨orderedCellPair_le cc.1 cc.2, hne, hcon,
        (orderedCellPair cc.1 cc.2).1, hops.1, (orderedCellPair cc.1 cc.2).2, hops.2,
        rfl, rfl, hch⟩
    constructor
    · intro q hq
      rcases List.mem_append.1 hq with h | h
      · exact hacc q h
      · rw [List.mem_singleton.1 h]; exact hok
    · exact List.Nodup.append hnd (List.nodup_singleton _)
        (by simpa using fun h => hnin h)

theorem foldl_pairStep_inv (s : ℚ → ℚ) (w : World) (l : List (Cell × Cell)) :
    ∀ acc : List (ℕ × ℕ), (∀ cc ∈ l, cc.1 ∈ w.cells ∧ cc.2 ∈ w.cells) →
    (∀ q ∈ acc, ProposedOK w q) → acc.Nodup →
    (∀ q ∈ l.foldl (pairStep s w) acc, ProposedOK w q) ∧
      (l.foldl (pairStep s w) acc).Nodup := by
  induction l with
  | nil => exact fun acc _ hacc hnd => ⟨hacc, hnd⟩
  | cons cc rest ih =>
    intro acc hl hacc hnd
    have hcc := hl cc (List.mem_cons_self cc rest)
    obtain ⟨h1, h2⟩ := pairStep_inv s w acc cc hcc.1 hcc.2 hacc hnd
    exact ih (pairStep s w acc cc)
      (fun q hq => hl q (List.mem_cons_of_mem cc hq)) h1 h2

theorem proposedPairs_spec (s : ℚ → ℚ) (w : World) :
    (∀ q ∈ proposedPairs s w, ProposedOK w q) ∧ (proposedPairs s w).Nodup := by
  unfold proposedPairs
  exact foldl_pairStep_inv s w (batchPairs w.cells) []
    (fun cc hcc => batchPairs_mem hcc) (fun q hq => absurd hq (List.not_mem_nil q))
    List.nodup_nil

theorem createConnection_node0 (s : ℚ → ℚ) (w : World) (p : ℕ × ℕ) :
    (createConnection s w p).node0 = p.1 := rfl

theorem createConnection_node1 (s : ℚ → ℚ) (w : World) (p : ℕ × ℕ) :
    (createConnection s w p).node1 = p.2 := rfl

theorem joins_createConnection (s : ℚ → ℚ) (w : World) (p : ℕ × ℕ) (a b : ℕ) :
    joins (createConnection s w p) a b ↔
      (p.1 = a ∧ p.2 = b) ∨ (p.1 = b ∧ p.2 = a) := by
  unfold joins
  rw [createConnection_node0, createConnection_node1]

theorem areConnected_symm_pair {w : World} {a b : ℕ} (h : areConnected w a b) :
    areConnected w b a := by
  obtain ⟨c, hc, hj⟩ := h
  exact ⟨c, hc, Or.symm (by tauto)⟩

theorem areConnected_refreshed (s : ℚ → ℚ) (w : World) (a b : ℕ) :
    areConnected { w with conns := refreshedConns s w } a b ↔ areConnected w a b := by
  unfold areConnected refreshedConns
  constructor
  · rintro ⟨c, hc, hj⟩
    rcases List.mem_map.1 hc with ⟨c0, hc0, he⟩
    exact ⟨c0, hc0, by rw [← he] at hj; exact (joins_updateLengthDirection s w c0 a b).1 hj⟩
  · rintro ⟨c, hc, hj⟩
    exact ⟨updateLengthDirection s w c, List.mem_map_of_mem _ hc,
      (joins_updateLengthDirection s w c a b).2 hj⟩

theorem check_conns_eq (s : ℚ → ℚ) (w : World) :
    (checkForCellCellConnections s w).conns =
      refreshedConns s w ++
        (proposedPairs s { w with conns := refreshedConns s w }).map
          (createConnection s { w with conns := refreshedConns s w }) := rfl

theorem pairJoinCount_refreshed (s : ℚ → ℚ) (w : World) (a b : ℕ) :
    (refreshedConns s w).countP (fun c => decide (joins c a b)) = pairJoinCount w a b := by
  unfold refreshedConns pairJoinCount
  rw [List.countP_map]
  refine List.countP_congr (fun c _ => ?_)
  simp [Function.comp, joins_updateLengthDirection]

theorem check_preserves_PairOK (s : ℚ → ℚ) (w : World) (h : PairOK w) :
    PairOK (checkForCellCellConnections s w) := by
  obtain ⟨hself, hpw⟩ := h
  have hpp := proposedPairs_spec s { w with conns := refreshedConns s w }
  refine ⟨?_, ?_⟩ <;> rw [check_conns_eq]
  · intro c hc
    rcases List.mem_append.1 hc with hc | hc
    · rcases List.mem_map.1 hc with ⟨c0, hc0, he⟩
      rw [← he]
      exact hself c0 hc0
    · rcases List.mem_map.1 hc with ⟨q, hq, he⟩
      rw [← he, createConnection_node0, createConnection_node1]
      exact ((hpp.1 q hq).2.1)
  · rw [List.pairwise_append]
    refine ⟨?_, ?_, ?_⟩
    · rw [refreshedConns, List.pairwise_map]
      exact hpw.imp (fun hcd => by simpa [joins_updateLengthDirection] using hcd)
    · rw [List.pairwise_map]
      refine List.Pairwise.imp_of_mem ?_ hpp.2
      intro q q2 hq hq2 hne hj
      have h1 := hpp.1 q hq
      have h2 := hpp.1 q2 hq2
      rw [createConnection_node0, createConnection_node1, joins_createConnection] at hj
      rcases hj with ⟨ha, hb⟩ | ⟨ha, hb⟩
      · exact hne (Prod.ext ha.symm hb.symm)
      · have e1 := h1.1
        have e2 := h2.1
        have e3 := h1.2.1
        omega
    · intro c hc b hb
      rcases List.mem_map.1 hc with ⟨c0, hc0, hec⟩
      rcases List.mem_map.1 hb with ⟨q, hq, heb⟩
      have hok := hpp.1 q hq
      rw [← hec, ← heb]
      intro hj
      rw [updateLengthDirection_node0, updateLengthDirection_node1,
        joins_createConnection] at hj
      apply hok.2.2.1
      rw [areConnected_refreshed]
      rcases hj with ⟨ha, hb2⟩ | ⟨ha, hb2⟩
      · exact ⟨c0, hc0, Or.inl ⟨ha.symm, hb2.symm⟩⟩
      · exact ⟨c0, hc0, Or.inr ⟨hb2.symm, ha.symm⟩⟩

theorem check_count_connected (s : ℚ → ℚ) (w : World) (a b : ℕ)
    (h : areConnected w a b) :
    pairJoinCount (checkForCellCellConnections s w) a b = pairJoinCount w a b := by
  have hpp := proposedPairs_spec s { w with conns := refreshedConns s w }
  show (checkForCellCellConnections s w).conns.countP _ = _
  rw [check_conns_eq, List.countP_append, pairJoinCount_refreshed]
  have hzero : ((proposedPairs s { w with conns := refreshedConns s w }).map
      (createConnection s { w with conns := refreshedConns s w })).countP
        (fun c => decide (joins c a b)) = 0 := by
    rw [List.countP_eq_zero]
    intro c hc
    rcases List.mem_map.1 hc with ⟨q, hq, he⟩
    have hok := hpp.1 q hq
    simp only [← he, decide_eq_true_eq]
    intro hj
    rw [joins_createConnection] at hj
    apply hok.2.2.1
    rw [areConnected_refreshed]
    rcases hj with ⟨ha, hb⟩ | ⟨ha, hb⟩
    · rw [ha, hb]; exact h
    · rw [ha, hb]; exact areConnected_symm_pair h
  rw [hzero]
  omega

/-- C2: checkForCellCellConnections preserves the central pair invariant: it
never creates a connection for a pair that is already connected (their join
count is unchanged by the pass), never proposes the same pair twice within a
pass, and never connects a cell to itself; consequently at most one active
connection joins every unordered pair, and running the pass twice with no
state change in between leaves the invariant intact and adds no second
connection for a pair the first pass connected. -/
theorem checkForCellCellConnections_no_duplicate (s : ℚ → ℚ) (w : World)
    (hPO : PairOK w) :
    PairOK (checkForCellCellConnections s w) ∧
    PairOK (checkForCellCellConnections s (checkForCellCellConnections s w)) ∧
    (∀ a b : ℕ, areConnected w a b →
      pairJoinCount (checkForCellCellConnections s w) a b = pairJoinCount w a b) ∧
    (∀ c ∈ (checkForCellCellConnections s w).conns, c.node0 ≠ c.node1) :=
  ⟨check_preserves_PairOK s w hPO,
   check_preserves_PairOK s _ (check_preserves_PairOK s w hPO),
   fun a b h => check_count_connected s w a b h,
   (check_preserves_PairOK s w hPO).1⟩

/-- Witness for C2: two unit cells in contact range get connected by the first
pass, and the second pass run with no state change keeps exactly one
connection between them. -/
theorem checkForCellCellConnections_no_duplicate_witness :
    PairOK (checkForCellCellConnections sqrtQ wC2) ∧
    pairJoinCount
        (checkForCellCellConnections sqrtQ (checkForCellCellConnections sqrtQ wC2)) 0 1 =
      pairJoinCount (checkForCellCellConnections sqrtQ wC2) 0 1 :=
  ⟨(checkForCellCellConnections_no_duplicate sqrtQ wC2 (by with_unfolding_all decide)).1,
   (checkForCellCellConnections_no_duplicate sqrtQ (checkForCellCellConnections sqrtQ wC2)
      (by with_unfolding_all decide)).2.2.1 0 1 (by with_unfolding_all decide)⟩

/-- C4 (amended): a pair of unconnected cells whose rounded squared center
distance (squared length of the componentwise fixed-precision rounding of the
center difference, the quantity the code compares) strictly exceeds the
squared sum of their corrected radii is never connected by
checkForCellCellConnections; a pair at exactly the squared sum passes the
cheap test and stays eligible for the precise test, concretely two unit cells
at distance 2.0; and two unit cells at distance 2.001 are never connected.
On the unrounded squared center distance the statement fails by a
sub-precision margin (see the counterexample). -/
theorem checkForCellCellConnections_threshold (s : ℚ → ℚ) (w : World) (a b : ℕ)
    (h : ∀ c1 ∈ w.cells, ∀ c2 ∈ w.cells,
        (c1.id = a ∧ c2.id = b) ∨ (c1.id = b ∧ c2.id = a) → ¬ cheapPass c1 c2) :
    pairJoinCount (checkForCellCellConnections s w) a b = pairJoinCount w a b ∧
    cheapPass (mkCell 0 ⟨0, 0, 0⟩ 1 1) (mkCell 1 ⟨2, 0, 0⟩ 1 1) ∧
    ¬ areConnected wC4a 0 1 ∧
    (checkForCellCellConnections sqrtQ wC4b).conns = [] := by
  refine ⟨?_, by with_unfolding_all decide, by with_unfolding_all decide,
    by with_unfolding_all decide⟩
  have hpp := proposedPairs_spec s { w with conns := refreshedConns s w }
  show (checkForCellCellConnections s w).conns.countP _ = _
  rw [check_conns_eq, List.countP_append, pairJoinCount_refreshed]
  have hzero : ((proposedPairs s { w with conns := refreshedConns s w }).map
      (createConnection s { w with conns := refreshedConns s w })).countP
        (fun c => decide (joins c a b)) = 0 := by
    rw [List.countP_eq_zero]
    intro c hc
    rcases List.mem_map.1 hc with ⟨q, hq, he⟩
    have hok := hpp.1 q hq
    simp only [← he, decide_eq_true_eq]
    intro hj
    rw [joins_createConnection] at hj
    obtain ⟨c1, hc1, c2, hc2, hid1, hid2, hch⟩ := hok.2.2.2
    rcases hj with ⟨ha, hb⟩ | ⟨ha, hb⟩
    · exact h c1 hc1 c2 hc2 (Or.inl ⟨hid1.trans ha, hid2.trans hb⟩) hch
    · exact h c1 hc1 c2 hc2 (Or.inr ⟨hid1.trans ha, hid2.trans hb⟩) hch
  rw [hzero]
  omega

/-- Witness for C4: two unit cells at distance 2.001 fail the cheap test in
both orders, so the pass leaves their join count unchanged at zero. -/
theorem checkForCellCellConnections_threshold_witness :
    pairJoinCount (checkForCellCellConnections sqrtQ wC4b) 0 1 =
      pairJoinCount wC4b 0 1 :=
  (checkForCellCellConnections_threshold sqrtQ wC4b 0 1
    (by with_unfolding_all decide)).1

/-- C4 counterexample: two unconnected cells of corrected radius 0.4999996 at
center distance 0.99999949, whose true squared center distance strictly
exceeds the squared radius sum, are nevertheless connected by the pass: the
6 decimal rounding of the center difference (0.999999) slips under the cheap
threshold and the rounded membrane distances (0.5 each) admit the precise
test. -/
theorem checkForCellCellConnections_rounding_counterexample :
    ¬ areConnected wC4x 0 1 ∧
    (posOf wC4x 0 - posOf wC4x 1).sqlength > (crOf wC4x 0 + crOf wC4x 1) ^ 2 ∧
    areConnected (checkForCellCellConnections sqrtQ wC4x) 0 1 := by
  with_unfolding_all decide

theorem pairwise_rel_of_mem {α : Type} {R : α → α → Prop}
    (hs : ∀ a b, R a b → R b a) {l : List α} (h : l.Pairwise R) :
    ∀ {a b : α}, a ∈ l → b ∈ l → a ≠ b → R a b := by
  induction l with
  | nil => intro a b ha; exact absurd ha (List.not_mem_nil a)
  | cons c rest ih =>
    intro a b ha hb hne
    rcases List.pairwise_cons.1 h with ⟨hc, hrest⟩
    rcases List.mem_cons.1 ha with rfl | ha2
    · rcases List.mem_cons.1 hb with rfl | hb2
      · exact absurd rfl hne
      · exact hc b hb2
    · rcases List.mem_cons.1 hb with rfl | hb2
      · exact hs b a (hc a ha2)
      · exact ih hrest ha2 hb2 hne

theorem refreshedConns_pairwise (s : ℚ → ℚ) (w : World) (h : PairOK w) :
    (refreshedConns s w).Pairwise (fun c d => ¬ joins d c.node0 c.node1) := by
  rw [refreshedConns, List.pairwise_map]
  exact h.2.imp (fun hcd => by simpa [joins_updateLengthDirection] using hcd)

theorem joins_refreshConn (w : World) (cn : Conn) (a b : ℕ) :
    joins (refreshConn w cn) a b ↔ joins cn a b := by
  unfold joins
  rw [refreshConn_node0, refreshConn_node1]

/-- C1: a connection processed by updateCellCellConnections survives the pass
if and only if its refreshed length does not exceed the rounded sum of the two
corrected radii AND each endpoint belongs to the other endpoint's
closest-connected-cells query along the rounded connection direction; the
removal decisions are all taken against the fully refreshed container and the
disconnections happen only after the scan, which the functional composition
filter-then-disconnect below makes explicit.  In particular a one-sided
nearest-neighbour failure (node1 in the query set of node0 but node0 absent
from the query set of node1) always removes the connection. -/
theorem updateCellCellConnections_removal_iff (s : ℚ → ℚ) (w : World)
    (hPO : PairOK w) (cn : Conn) (hcn : cn ∈ refreshedConns s w) :
    ((∃ c ∈ (updateCellCellConnections s w).conns, joins c cn.node0 cn.node1) ↔
      ¬ (cn.length > roundN (crOf w cn.node0 + crOf w cn.node1) ∨
         cn.node0 ∉ (getConnectedCellAndMembraneDistance s
             { w with conns := refreshedConns s w } cn.node1
             (roundV (-cn.direction))).1 ∨
         cn.node1 ∉ (getConnectedCellAndMembraneDistance s
             { w with conns := refreshedConns s w } cn.node0
             (roundV cn.direction)).1)) ∧
    ((cn.node1 ∈ (getConnectedCellAndMembraneDistance s
          { w with conns := refreshedConns s w } cn.node0 (roundV cn.direction)).1 ∧
      cn.node0 ∉ (getConnectedCellAndMembraneDistance s
          { w with conns := refreshedConns s w } cn.node1 (roundV (-cn.direction))).1) →
      ∀ c ∈ (updateCellCellConnections s w).conns, ¬ joins c cn.node0 cn.node1) := by
  have hiff : connectionInvalid s { w with conns := refreshedConns s w } cn ↔
      (cn.length > roundN (crOf w cn.node0 + crOf w cn.node1) ∨
       cn.node0 ∉ (getConnectedCellAndMembraneDistance s
           { w with conns := refreshedConns s w } cn.node1 (roundV (-cn.direction))).1 ∨
       cn.node1 ∉ (getConnectedCellAndMembraneDistance s
           { w with conns := refreshedConns s w } cn.node0 (roundV cn.direction)).1) :=
    Iff.rfl
  have hout : ∀ c, c ∈ (updateCellCellConnections s w).conns ↔
      (c ∈ (refreshedConns s w).map (fun cn2 =>
          if connectionInvalid s { w with conns := refreshedConns s w } cn2 then cn2
          else refreshConn { w with conns := refreshedConns s w } cn2) ∧
        ∀ e ∈ (refreshedConns s w).filter (fun cn2 =>
            decide (connectionInvalid s { w with conns := refreshedConns s w } cn2)),
          ¬ joins c e.node0 e.node1) := by
    intro c
    exact mem_foldl_disconnect _ _ c
  rw [← hiff]
  have hpw := refreshedConns_pairwise s w hPO
  constructor
  · constructor
    · rintro ⟨c, hc, hj⟩ hinv
      have hcn_er : cn ∈ (refreshedConns s w).filter (fun cn2 =>
          decide (connectionInvalid s { w with conns := refreshedConns s w } cn2)) := by
        rw [List.mem_filter]
        exact ⟨hcn, by simpa using hinv⟩
      exact ((hout c).1 hc).2 cn hcn_er hj
    · intro hninv
      refine ⟨refreshConn { w with conns := refreshedConns s w } cn, ?_, ?_⟩
      · rw [hout]
        constructor
        · have : (fun cn2 =>
              if connectionInvalid s { w with conns := refreshedConns s w } cn2 then cn2
              else refreshConn { w with conns := refreshedConns s w } cn2) cn =
              refreshConn { w with conns := refreshedConns s w } cn := by
            simp [hninv]
          rw [← this]
          exact List.mem_map_of_mem _ hcn
        · intro e he hj
          rw [List.mem_filter] at he
          have hinv_e : connectionInvalid s { w with conns := refreshedConns s w } e := by
            simpa using he.2
          rw [joins_refreshConn] at hj
          by_cases hce : cn = e
          · exact hninv (hce ▸ hinv_e)
          · have hR := pairwise_rel_of_mem
              (fun a b hab hba => hab (joins_comm hba)) hpw hcn he.1 hce
            exact hR (joins_comm hj)
      · rw [joins_refreshConn]
        exact Or.inl ⟨rfl, rfl⟩
  · rintro ⟨hin, hnin⟩ c hc hj
    have hinv : connectionInvalid s { w with conns := refreshedConns s w } cn :=
      Or.inr (Or.inl hnin)
    have hcn_er : cn ∈ (refreshedConns s w).filter (fun cn2 =>
        decide (connectionInvalid s { w with conns := refreshedConns s w } cn2)) := by
      rw [List.mem_filter]
      exact ⟨hcn, by simpa using hinv⟩
    exact ((hout c).1 hc).2 cn hcn_er hj

/-- Witness for C1: in the three-cell world wC1, cell 1 sees cell 2 (not cell
0) as its closest connected neighbour along the 0-1 axis although cell 0
still sees cell 1: the one-sided failure removes the 0-1 connection from the
container. -/
theorem updateCellCellConnections_removal_iff_witness :
    pairJoinCount (updateCellCellConnections sqrtQ wC1) 0 1 = 0 := by
  have h := (updateCellCellConnections_removal_iff sqrtQ wC1
      (by with_unfolding_all decide)
      (updateLengthDirection sqrtQ wC1 (mkConn 0 1))
      (by with_unfolding_all decide)).2 (by with_unfolding_all decide)
  exact List.countP_eq_zero.2 (fun c hc => by simpa using h c hc)

theorem tryMatch_length (s : ℚ → ℚ) (c : Cell) (cd proj : Vec) (face : ℕ) :
    ∀ (l l2 : List MC), tryMatch s c cd proj face l = some l2 →
      l2.length = l.length := by
  intro l
  induction l with
  | nil => intro l2 h; exact Option.noConfusion h
  | cons mc rest ih =>
    intro l2 h
    rw [tryMatch] at h
    split_ifs at h with hsim
    · rw [Option.some.injEq] at h
      rw [← h]
      simp
    · cases hrec : tryMatch s c cd proj face rest with
      | none => rw [hrec] at h; simp at h
      | some l3 =>
        rw [hrec] at h
        simp only [Option.map_some', Option.some.injEq] at h
        rw [← h]
        simp [ih l3 hrec]

theorem cleanup_removeDirty_wf (cm : CMCon) :
    ∀ p ∈ cleanupEmpty (removeDirty cm), ∀ q ∈ p.2,
      q.2 ≠ [] ∧ ∀ mc ∈ q.2, mc.dirty = false := by
  intro p hp q hq
  unfold cleanupEmpty at hp
  rcases List.mem_filterMap.1 hp with ⟨a, ha, hfa⟩
  by_cases h0 : a.2 = []
  · rw [if_pos h0] at hfa
    exact absurd hfa (by simp)
  · rw [if_neg h0, Option.some.injEq] at hfa
    rw [← hfa] at hq
    rw [List.mem_filter] at hq
    refine ⟨by simpa using hq.2, fun mc hmc => ?_⟩
    unfold removeDirty at ha
    rcases List.mem_map.1 ha with ⟨a0, _, hea⟩
    have hq1 : q ∈ a.2 := hq.1
    rw [← hea] at hq1
    rcases List.mem_map.1 hq1 with ⟨q0, _, heq⟩
    rw [← heq] at hmc
    rcases List.mem_filter.1 hmc with ⟨_, hdec⟩
    simpa using hdec

theorem markAllDirty_all (cmc : CMCon) :
    ∀ p ∈ markAllDirty cmc, ∀ q ∈ p.2, ∀ mc ∈ q.2, mc.dirty = true := by
  intro p hp q hq mc hmc
  unfold markAllDirty at hp
  rcases List.mem_map.1 hp with ⟨p0, _, hep⟩
  rw [← hep] at hq
  rcases List.mem_map.1 hq with ⟨q0, _, heq⟩
  rw [← heq] at hmc
  rcases List.mem_map.1 hmc with ⟨mc0, _, hem⟩
  rw [← hem]

theorem cleanupEmpty_keeps (cmc : CMCon) :
    ∀ p ∈ cmc, p.2 ≠ [] →
      (p.1, p.2.filter (fun q => q.2 ≠ [])) ∈ cleanupEmpty cmc := by
  intro p hp hne
  unfold cleanupEmpty
  exact List.mem_filterMap.2 ⟨p, hp, by rw [if_neg hne]⟩

/-- C9 (amended): every existing cell-model connection is marked dirty at the
start of the sweep; a candidate matching an existing connection of the same
(mesh, cell) key with cosine similarity above the 0.8 threshold updates it in
place, never changing the number of connections of the key (no duplicate);
after the sweep every surviving connection is unmarked and every surviving
cell entry is nonempty; and a mesh entry nonempty when the mesh-level cleanup
visits it is kept with only its empty cell entries erased — so a mesh entry
emptied by the same sweep's cell-level cleanup survives the sweep (the claim
as stated, with all empty entries erased, fails on the code: see the
counterexample). -/
theorem checkForCellModelCollisions_sweep (s : ℚ → ℚ) (models : ℕ → Model)
    (retrieve : ℕ → List (ℕ × ℕ)) (cells : List Cell) (cmc : CMCon) :
    (∀ p ∈ markAllDirty cmc, ∀ q ∈ p.2, ∀ mc ∈ q.2, mc.dirty = true) ∧
    (∀ (c : Cell) (cd proj : Vec) (face : ℕ) (l l2 : List MC),
      tryMatch s c cd proj face l = some l2 → l2.length = l.length) ∧
    (∀ p ∈ checkForCellModelCollisions s models retrieve cells cmc,
      ∀ q ∈ p.2, q.2 ≠ [] ∧ ∀ mc ∈ q.2, mc.dirty = false) ∧
    (∀ p ∈ cmc, p.2 ≠ [] →
      (p.1, p.2.filter (fun q => q.2 ≠ [])) ∈ cleanupEmpty cmc) :=
  ⟨markAllDirty_all cmc,
   fun c cd proj face l l2 h => tryMatch_length s c cd proj face l l2 h,
   fun p hp q hq => cleanup_removeDirty_wf _ p hp q hq,
   cleanupEmpty_keeps cmc⟩

/-- Witness for C9: a direction-identical candidate updates the single
existing connection in place (the list keeps length one), and a nonempty mesh
entry survives the cleanup with its nonempty cell entry. -/
theorem checkForCellModelCollisions_sweep_witness :
    tryMatch sqrtQ (mkCell 0 ⟨0, 0, 0⟩ 1 1) ⟨1, 0, 0⟩ ⟨1, 0, 0⟩ 0 [mc9] = some [mc9] ∧
    ([mc9] : List MC).length = [mc9].length ∧
    ((0 : ℕ), [((5 : ℕ), [mc9])]) ∈ cleanupEmpty cmc9 := by
  have htm : tryMatch sqrtQ (mkCell 0 ⟨0, 0, 0⟩ 1 1) ⟨1, 0, 0⟩ ⟨1, 0, 0⟩ 0 [mc9] =
      some [mc9] := by
    with_unfolding_all decide
  refine ⟨htm, ?_, ?_⟩
  · exact (checkForCellModelCollisions_sweep sqrtQ models0 retr0 [] cmc9).2.1
      (mkCell 0 ⟨0, 0, 0⟩ 1 1) ⟨1, 0, 0⟩ ⟨1, 0, 0⟩ 0 [mc9] [mc9] htm
  · have heq : ([((5 : ℕ), [mc9])] : List (ℕ × List MC)).filter (fun q => q.2 ≠ []) =
        [((5 : ℕ), [mc9])] := by
      with_unfolding_all decide
    have h := (checkForCellModelCollisions_sweep sqrtQ models0 retr0 [] cmc9).2.2.2
      ((0 : ℕ), [((5 : ℕ), [mc9])]) (by with_unfolding_all decide)
      (by with_unfolding_all decide)
    rw [← heq]
    exact h

/-- C9 counterexample: with no contact candidates, the single connection of
mesh 0 and cell 5 goes dirty and is removed, the cell entry is erased, but
the mesh entry — nonempty when the mesh-level cleanup visited it — survives
the sweep as an empty entry, although the claim says map entries left with no
connections are erased per cell and then per mesh. -/
theorem checkForCellModelCollisions_empty_mesh_counterexample :
    checkForCellModelCollisions sqrtQ models0 retr0 [mkCell 0 ⟨0, 0, 0⟩ 1 1] cmc9 =
      [(0, [])] ∧
    mcLookup cmc9 0 5 = [mc9] := by
  with_unfolding_all decide
